import Mathlib

/-!
Verification development for the MCP client repository.

The model is a shallow embedding of the orchestration core found in
src/mcp_client_web.py (the multi-server registry, the tool-catalog
aggregator `rebuild_tools_list`, and the agentic dispatch loop
`process_query_async`); src/mcp_client.py is the single-server variant of
the same dispatch loop.  Python dicts are modelled as insertion-ordered
association lists (insert replaces in place, like `d[k] = v`; delete is a
filter, like `del d[k]`), the LLM endpoint as an oracle returning one
response per iteration, `eval` of a tool call's argument payload as a
parse oracle that may fail, and tool invocation as an oracle that returns
the stringified result content or raises.
-/

namespace MCP

/-- A tool descriptor as fetched from a server's `list_tools` response:
name, description, input schema (the schema is an opaque JSON value,
modelled as a string). -/
structure ToolDescriptor where
  name : String
  description : String
  inputSchema : String
  deriving DecidableEq, Repr

/-- A configured server entry of `state.server_configs`:
`{'name': .., 'command': .., 'args': .., 'connected': ..}`. -/
structure ServerConfig where
  name : String
  command : String
  args : List String
  connected : Bool
  deriving DecidableEq, Repr

/-- The per-server record stored in `state.servers[name]`: the live
session and exit stack are opaque handles, so only the fetched tool list
is carried; presence of the key in the map is what "has a live session"
means. -/
structure ServerInfo where
  tools : List ToolDescriptor
  deriving DecidableEq, Repr

/-- Insertion-ordered association list standing for a Python dict:
`dictInsert` is `d[k] = v` (replaces in place, keeps position; appends at
the end for a new key). -/
def dictInsert (k : String) (v : ServerInfo) :
    List (String × ServerInfo) → List (String × ServerInfo)
  | [] => [(k, v)]
  | (k', v') :: rest =>
      if k' = k then (k, v) :: rest else (k', v') :: dictInsert k v rest

/-- `del d[k]` on the dict model. -/
def dictRemove (k : String) (d : List (String × ServerInfo)) :
    List (String × ServerInfo) :=
  d.filter (fun p => !(p.1 == k))

/-- `k in d` on the dict model. -/
def dictHas (k : String) (d : List (String × ServerInfo)) : Bool :=
  d.any (fun p => p.1 == k)

/-- The keys of the dict, in insertion order. -/
def dictKeys (d : List (String × ServerInfo)) : List String :=
  d.map Prod.fst

/-- The mutable global `MCPClientState` of mcp_client_web.py, restricted
to the registry/aggregator fields the dispatch engine reads and writes
(`client`, `loop`, `chat_history` and `logs` carry no routing state).
`available_tools` entries are pairs `(server_name, tool)`: the code
stamps `tool.server_name = server_name` on each aggregated entry. -/
structure MCPClientState where
  servers : List (String × ServerInfo)
  available_tools : List (String × ToolDescriptor)
  connected_servers : List String
  server_configs : List ServerConfig
  deriving DecidableEq, Repr

/-- The freshly constructed `MCPClientState()`. -/
def initState : MCPClientState :=
  { servers := [], available_tools := [], connected_servers := [],
    server_configs := [] }

/-- `rebuild_tools_list`: clears `available_tools` and re-appends, for
each server of `state.servers` in dict order, all of its tools stamped
with the owning server's name. -/
def rebuild_tools_list (s : MCPClientState) : MCPClientState :=
  { s with available_tools :=
      s.servers.flatMap (fun p => p.2.tools.map (fun t => (p.1, t))) }

/-- The `/servers/add` route `add_server`: rejects a duplicate name,
otherwise appends the config with `connected := false`. Returns the new
state and the response status string. -/
def add_server (name command : String) (args : List String)
    (s : MCPClientState) : MCPClientState × String :=
  if s.server_configs.any (fun c => c.name == name) then
    (s, "error")
  else
    ({ s with server_configs :=
        s.server_configs ++ [⟨name, command, args, false⟩] }, "success")

/-- Result dict of `connect_server_async` (status plus, on success, the
connected server's tool count). -/
structure ConnResult where
  status : String
  message : String
  deriving DecidableEq, Repr

/-- `connect_server_async server_config` with the connection attempt's
outcome supplied by the environment: `some ts` means handshake and
`list_tools` succeeded returning tools `ts`; `none` means some step up to
and including `list_tools` raised, in which case no state field has been
mutated yet (all stores happen after the last await) and the error dict
is returned. On success the code stores the server record (overwriting
any previous session for the name), marks every config of that name
`connected`, appends the name to `connected_servers` if absent, and
rebuilds the aggregated tool list before returning. -/
def connect_server_async (name : String)
    (outcome : Option (List ToolDescriptor)) (s : MCPClientState) :
    MCPClientState × ConnResult :=
  match outcome with
  | none => (s, ⟨"error", "Failed to connect to " ++ name⟩)
  | some ts =>
      let s1 := { s with servers := dictInsert name ⟨ts⟩ s.servers }
      let s2 := { s1 with server_configs :=
          s1.server_configs.map (fun c =>
            if c.name = name then { c with connected := true } else c) }
      let s3 :=
        if name ∈ s2.connected_servers then s2
        else { s2 with connected_servers := s2.connected_servers ++ [name] }
      (rebuild_tools_list s3, ⟨"success", "Connected to " ++ name⟩)

/-- `disconnect_server_async`: if the name has a live session, close it
(`exit_stack.aclose`), delete it from `state.servers`, remove the name
from `connected_servers` (Python `list.remove`: first occurrence), set
`connected := false` on every config of that name, and rebuild the tool
list; otherwise report "Server not connected". -/
def disconnect_server_async (name : String) (s : MCPClientState) :
    MCPClientState × ConnResult :=
  if dictHas name s.servers then
    let s1 := { s with servers := dictRemove name s.servers }
    let s2 := { s1 with connected_servers := s1.connected_servers.erase name }
    let s3 := { s2 with server_configs :=
        s2.server_configs.map (fun c =>
          if c.name = name then { c with connected := false } else c) }
    (rebuild_tools_list s3, ⟨"success", "Disconnected from " ++ name⟩)
  else
    (s, ⟨"error", "Server not connected"⟩)

/-- Observable steps of the `/servers/remove` route, used to talk about
the order in which removal deletes the config and closes the session. -/
inductive RemoveEvent where
  | configDeleted (name : String)
  | sessionClosed (name : String)
  deriving DecidableEq, Repr

/-- The `/servers/remove` route `remove_server`: FIRST filters the name
out of `server_configs`, THEN (if a live session exists — the code tests
`server_name in state.servers`, a dict the config filter does not touch,
so it is read off `s` here) runs `disconnect_server_async`; always
answers `{'status': 'success'}`. The third component is the ordered
trace of observable steps: a `configDeleted` event when a config of that
name existed, then a `sessionClosed` event when a session was closed. -/
def remove_server (name : String) (s : MCPClientState) :
    MCPClientState × String × List RemoveEvent :=
  let hadConfig := s.server_configs.any (fun c => c.name == name)
  let s1 := { s with server_configs :=
      s.server_configs.filter (fun c => !(c.name == name)) }
  let ev1 : List RemoveEvent :=
    if hadConfig then [RemoveEvent.configDeleted name] else []
  if dictHas name s.servers then
    ((disconnect_server_async name s1).1, "success",
      ev1 ++ [RemoveEvent.sessionClosed name])
  else
    (s1, "success", ev1)

/-- Per-run environment for connection attempts: for each server name,
`some ts` when connecting succeeds with tool catalog `ts`, `none` when
the attempt raises. -/
structure ConnEnv where
  outcome : String → Option (List ToolDescriptor)

/-- The aggregate dict `connect_all_async` returns on its success path:
`{'status': 'success', 'message': f'Connected to N servers',
'servers': connected_servers, 'total_tools': len(available_tools)}`.
The per-attempt `results` list collected in the loop is NOT part of it. -/
structure ConnectAllResult where
  status : String
  message : String
  servers : List String
  total_tools : Nat
  deriving DecidableEq, Repr

/-- The iteration of `connect_all_async` over `state.server_configs`:
for each config (taken here by name, in list order) whose CURRENT
`connected` flag is false, run `connect_server_async` and append its
result dict to the local `results` list; a failed attempt leaves the
state unchanged and the loop moves on to the next config. -/
def connect_all_go (env : ConnEnv) :
    List String → MCPClientState → List ConnResult →
    MCPClientState × List ConnResult
  | [], s, acc => (s, acc)
  | n :: rest, s, acc =>
    match s.server_configs.find? (fun c => c.name == n) with
    | none => connect_all_go env rest s acc
    | some c =>
        if c.connected then connect_all_go env rest s acc
        else
          let r := connect_server_async n (env.outcome n) s
          connect_all_go env rest r.1 (acc ++ [r.2])

/-- `connect_all_async` (the `/connect` route body, given that the API
key is present so the early-return guard is not taken): if no server is
configured, append the default config first; then attempt every
not-yet-connected config independently; finally return the aggregate
success dict built from `connected_servers` and `available_tools`.  The
middle component is the route's return value; the last component is the
local `results` list, which the code accumulates and then drops. -/
def connect_all_async (env : ConnEnv) (s : MCPClientState) :
    MCPClientState × ConnectAllResult × List ConnResult :=
  let s0 :=
    if s.server_configs.isEmpty then
      { s with server_configs :=
          [⟨"default", "python3", ["mcp_server.py"], false⟩] }
    else s
  let p := connect_all_go env (s0.server_configs.map (fun c => c.name)) s0 []
  (p.1,
   ⟨"success",
    "Connected to " ++ toString p.1.connected_servers.length ++ " servers",
    p.1.connected_servers, p.1.available_tools.length⟩,
   p.2)

/-- Position of the first occurrence of an event in a removal trace. -/
def idxOf (tr : List RemoveEvent) (e : RemoveEvent) : Option Nat :=
  tr.findIdx? (fun x => x == e)

/-- "The removal disconnected the server before deleting its config":
the first `sessionClosed name` event strictly precedes the first
`configDeleted name` event. -/
def disconnectBeforeDelete (tr : List RemoveEvent) (name : String) : Bool :=
  match idxOf tr (RemoveEvent.sessionClosed name),
        idxOf tr (RemoveEvent.configDeleted name) with
  | some i, some j => i < j
  | _, _ => false

/-- One front-end operation against the registry, with the connection
attempt's outcome (for `connect`) carried in the operation so that a
whole interaction is a plain list of operations. -/
inductive Op where
  | addServer (name command : String) (args : List String)
  | connect (name : String) (outcome : Option (List ToolDescriptor))
  | disconnect (name : String)
  | removeServer (name : String)
  deriving Repr

/-- Apply one operation, following the corresponding route: `connect`
first looks the name up among the configs (the route answers "Server not
found" and changes nothing when it is absent), then runs
`connect_server_async`. -/
def applyOp (s : MCPClientState) : Op → MCPClientState
  | Op.addServer n cmd args => (add_server n cmd args s).1
  | Op.connect n outcome =>
      if s.server_configs.any (fun c => c.name == n) then
        (connect_server_async n outcome s).1
      else s
  | Op.disconnect n => (disconnect_server_async n s).1
  | Op.removeServer n => (remove_server n s).1

/-- Run a sequence of operations from the initial state. -/
def runOps (ops : List Op) : MCPClientState :=
  ops.foldl applyOp initState

/-- The flat tool view a rebuild produces from a live-session map. -/
def flatOf (servers : List (String × ServerInfo)) :
    List (String × ToolDescriptor) :=
  servers.flatMap (fun p => p.2.tools.map (fun t => (p.1, t)))

/-- Parsed tool-call arguments: the key-value map `eval` yields. -/
abbrev ArgVal : Type := List (String × String)

/-- One tool call requested by the LLM: `tool_call.id`,
`tool_call.function.name`, and the raw `tool_call.function.arguments`
payload before parsing. -/
structure ToolCallReq where
  id : String
  name : String
  argumentsRaw : String
  deriving DecidableEq, Repr

/-- One LLM response: `response_message.content` and
`response_message.tool_calls` (the empty list plays the role of Python's
falsy `None`/`[]`, which is what `if not response_message.tool_calls`
tests). -/
structure LLMResponse where
  content : Option String
  tool_calls : List ToolCallReq
  deriving Repr

/-- A transcript turn of the `messages` list. -/
inductive Msg where
  | user (content : String)
  | assistant (content : Option String) (tool_calls : List ToolCallReq)
  | tool (tool_call_id : String) (name : String) (content : String)
  deriving DecidableEq, Repr

/-- Is this turn a `tool`-role turn? -/
def Msg.isToolTurn : Msg → Bool
  | Msg.tool _ _ _ => true
  | _ => false

/-- One entry of the `tool_executions` list: tool name plus parsed
arguments, appended for every requested call right after its arguments
parse, before ownership resolution. -/
abbrev ToolExec : Type := String × ArgVal

/-- A record that `session.call_tool` was actually awaited on some
server: (server name, tool name, arguments). -/
abbrev Invocation : Type := String × String × ArgVal

/-- Oracles for the dispatch loop's two effectful per-call steps:
`parse` models `eval(tool_call.function.arguments)` (`Except.error e`
is the raised exception, stringified), and `callTool` models
`await server_session.call_tool(...)` returning `str(result.content)`
(or raising). -/
structure DispatchEnv where
  parse : String → Except String ArgVal
  callTool : String → String → ArgVal → Except String String

/-- The error content synthesized for an unresolvable tool name. -/
def toolNotFoundMsg (name : String) : String :=
  "Tool " ++ name ++ " not found in any connected server"

/-- The `for tool_call in response_message.tool_calls` body of
`process_query_async`.  For each call in order: parse the arguments (a
parse failure raises, which aborts the WHOLE query via the function's
outer `except`, carried here as `Except.error` with the local
`messages`/invocations at that point); append the `tool_executions`
record; resolve the owner as the FIRST entry of `available_tools` whose
tool name matches; if none, append a `tool` turn holding the not-found
error string and continue with the next call; otherwise invoke the
owner's session and append the stringified result as a `tool` turn. -/
def processToolCalls (env : DispatchEnv)
    (availTools : List (String × ToolDescriptor)) :
    List ToolCallReq → List Msg → List ToolExec → List Invocation →
    Except (String × List Msg × List Invocation)
      (List Msg × List ToolExec × List Invocation)
  | [], msgs, execs, invs => Except.ok (msgs, execs, invs)
  | tc :: rest, msgs, execs, invs =>
    match env.parse tc.argumentsRaw with
    | Except.error e => Except.error (e, msgs, invs)
    | Except.ok args =>
      let execs1 := execs ++ [(tc.name, args)]
      match availTools.find? (fun p => p.2.name == tc.name) with
      | none =>
          processToolCalls env availTools rest
            (msgs ++ [Msg.tool tc.id tc.name (toolNotFoundMsg tc.name)])
            execs1 invs
      | some owner =>
          match env.callTool owner.1 tc.name args with
          | Except.error e => Except.error (e, msgs, invs)
          | Except.ok content =>
              processToolCalls env availTools rest
                (msgs ++ [Msg.tool tc.id tc.name content])
                execs1 (invs ++ [(owner.1, tc.name, args)])

/-- Outcome of one query: the success dict
`{'status':'success','response':..,'tool_executions':..}` (together with
the final local `messages` and the invocations that happened), the error
dict `{'status':'error','message':..}` produced by the outer `except`
(again with the locals at the raise point), or fuel exhaustion — the
code's `while True` has no counterpart of this last case, which exists
only because the embedding must bound recursion. -/
inductive QueryOutcome where
  | success (response : Option String) (tool_executions : List ToolExec)
      (messages : List Msg) (invocations : List Invocation)
  | error (message : String) (messages : List Msg)
      (invocations : List Invocation)
  | outOfFuel (messages : List Msg)
  deriving Repr

/-- The agentic `while True` loop of `process_query_async`, with the LLM
modelled as an oracle `gw` giving the response of each iteration
(iteration counter `i`), and recursion bounded by `fuel`.  Each
iteration appends the assistant turn, returns the success dict when the
response carries no tool calls, and otherwise processes the calls and
loops. -/
def agenticLoop (env : DispatchEnv)
    (availTools : List (String × ToolDescriptor))
    (gw : Nat → LLMResponse) :
    Nat → Nat → List Msg → List ToolExec → List Invocation → QueryOutcome
  | 0, _, msgs, _, _ => QueryOutcome.outOfFuel msgs
  | fuel + 1, i, msgs, execs, invs =>
    let resp := gw i
    let msgs1 := msgs ++ [Msg.assistant resp.content resp.tool_calls]
    if resp.tool_calls.isEmpty then
      QueryOutcome.success resp.content execs msgs1 invs
    else
      match processToolCalls env availTools resp.tool_calls msgs1 execs invs with
      | Except.error (e, m, v) => QueryOutcome.error e m v
      | Except.ok (m, e, v) => agenticLoop env availTools gw fuel (i + 1) m e v

/-- `process_query_async query`: seed the transcript with the user turn
and run the loop from iteration 0. -/
def process_query_async (env : DispatchEnv)
    (availTools : List (String × ToolDescriptor)) (gw : Nat → LLMResponse)
    (query : String) (fuel : Nat) : QueryOutcome :=
  agenticLoop env availTools gw fuel 0 [Msg.user query] [] []

/-- All tool calls the gateway requests in iterations `i, i+1, ...,
i+k-1`. -/
def requestedCalls (gw : Nat → LLMResponse) : Nat → Nat → List ToolCallReq
  | _, 0 => []
  | i, k + 1 => (gw i).tool_calls ++ requestedCalls gw (i + 1) k

/-- The parsed arguments of a call whose payload parses. -/
def argOf (env : DispatchEnv) (tc : ToolCallReq) : ArgVal :=
  match env.parse tc.argumentsRaw with
  | Except.ok a => a
  | Except.error _ => []

/-- Does the call's argument payload parse? -/
def parseOk (env : DispatchEnv) (tc : ToolCallReq) : Bool :=
  match env.parse tc.argumentsRaw with
  | Except.ok _ => true
  | Except.error _ => false

/-- Did the query run out of fuel (the case the unbounded `while True`
of the code never leaves on a tool-call-forever gateway)? -/
def QueryOutcome.isOutOfFuel : QueryOutcome → Bool
  | QueryOutcome.outOfFuel _ => true
  | _ => false

/-! ### Concrete fixtures

A small reachable registry: servers "A" and "B", connected in that
order, each exposing one tool that happens to carry the same name
`"t"`. -/

/-- Server A's tool, named `"t"`. -/
def exToolA : ToolDescriptor := ⟨"t", "dA", "sA"⟩

/-- Server B's tool, also named `"t"`. -/
def exToolB : ToolDescriptor := ⟨"t", "dB", "sB"⟩

/-- Add and connect "A", then add and connect "B". -/
def exOps : List Op :=
  [Op.addServer "A" "cmd" [], Op.connect "A" (some [exToolA]),
   Op.addServer "B" "cmd" [], Op.connect "B" (some [exToolB])]

/-- The registry state after `exOps`. -/
def exState : MCPClientState := runOps exOps

/-- An aggregated view with the single tool `exToolA` owned by "A". -/
def availOne : List (String × ToolDescriptor) := [("A", exToolA)]

/-- Dispatch environment in which every payload parses to the empty map
and every tool invocation returns "ok". -/
def envOk : DispatchEnv :=
  ⟨fun _ => Except.ok [], fun _ _ _ => Except.ok "ok"⟩

/-- Dispatch environment in which the payload `"bad"` fails to parse
(`eval` raises a `SyntaxError`) and everything else parses. -/
def envBadArg : DispatchEnv :=
  ⟨fun r => if r == "bad" then Except.error "SyntaxError: invalid syntax"
            else Except.ok [],
   fun _ _ _ => Except.ok "ok"⟩

/-- Gateway that first requests one call to `"t"` with the unparsable
payload `"bad"`, then would answer plainly. -/
def gwBadArg : Nat → LLMResponse :=
  fun i => if i == 0 then ⟨none, [⟨"c1", "t", "bad"⟩]⟩ else ⟨some "done", []⟩

/-- Gateway that requests one tool call on every single iteration. -/
def gwForever : Nat → LLMResponse :=
  fun _ => ⟨none, [⟨"c1", "t", "ok-args"⟩]⟩

/-- Gateway that requests a call to the unregistered tool `"ghost"` and
a call to `"t"`, then answers plainly. -/
def gwGhost : Nat → LLMResponse :=
  fun i =>
    if i == 0 then ⟨none, [⟨"c1", "ghost", "kv-args"⟩, ⟨"c2", "t", "kv-args"⟩]⟩
    else ⟨some "fine", []⟩

/-- Connection environment in which "B" connects (with `exToolB`) and
every other server fails to connect. -/
def envConnB : ConnEnv :=
  ⟨fun n => if n == "B" then some [exToolB] else none⟩

/-- Configs "A" and "B", neither connected ("A" will fail). -/
def sAB : MCPClientState :=
  (add_server "B" "c" [] (add_server "A" "c" [] initState).1).1

/-- Config "B" alone, not connected. -/
def sB : MCPClientState := (add_server "B" "c" [] initState).1

/-- The registry's reachable-state invariant: the aggregated list is
exactly the rebuild of the live-session map; the connected-servers list
has no duplicates and holds exactly the keys of the live-session map;
every stored config whose name has a live session is flagged connected;
and every live session's name has a stored config. -/
def RegistryInv (s : MCPClientState) : Prop :=
  s.available_tools = flatOf s.servers ∧
  s.connected_servers.Nodup ∧
  (∀ n, dictHas n s.servers = true ↔ n ∈ s.connected_servers) ∧
  (∀ c ∈ s.server_configs, dictHas c.name s.servers = true →
    c.connected = true) ∧
  (∀ n, dictHas n s.servers = true → ∃ c ∈ s.server_configs, c.name = n)

/-- The result dict one `connect_server_async` attempt produces, as a
function of the attempted server's own outcome alone. -/
def attemptResult (env : ConnEnv) (n : String) : ConnResult :=
  match env.outcome n with
  | some _ => ⟨"success", "Connected to " ++ n⟩
  | none => ⟨"error", "Failed to connect to " ++ n⟩

/-! ### Generic helper lemmas -/

/-- Unfolding one iteration of the loop when the response carries tool
calls and their processing succeeds: the loop proceeds to the next LLM
round trip. -/
theorem agenticLoop_step (env : DispatchEnv)
    (availTools : List (String × ToolDescriptor)) (gw : Nat → LLMResponse)
    (fuel i : Nat) (msgs : List Msg) (execs : List ToolExec)
    (invs : List Invocation) (m : List Msg) (e : List ToolExec)
    (v : List Invocation)
    (h1 : (gw i).tool_calls.isEmpty = false)
    (h2 : processToolCalls env availTools (gw i).tool_calls
        (msgs ++ [Msg.assistant (gw i).content (gw i).tool_calls]) execs invs
        = Except.ok (m, e, v)) :
    agenticLoop env availTools gw (fuel + 1) i msgs execs invs =
      agenticLoop env availTools gw fuel (i + 1) m e v := by
  simp only [agenticLoop, h1, Bool.false_eq_true, if_false, h2]

/-! ### Claim C1 -/

/-- Claim C1 (code bug evidence): when the gateway's single tool call
carries an argument payload that fails to parse, the code does NOT
contain the failure to that call — the raised parse error escapes to the
outer `except`, the whole query returns the error dict, and the
transcript receives no tool-result turn for the call (the dispatch loop
never reaches another LLM round trip). -/
theorem claim_C1_parse_error_aborts_query :
    process_query_async envBadArg availOne gwBadArg "q" 5 =
      QueryOutcome.error "SyntaxError: invalid syntax"
        [Msg.user "q", Msg.assistant none [⟨"c1", "t", "bad"⟩]] [] ∧
    ([Msg.user "q",
      Msg.assistant none [⟨"c1", "t", "bad"⟩]].all
        (fun m => !m.isToolTurn)) = true := by
  exact ⟨rfl, rfl⟩

/-! ### Claim C2 -/

/-- Claim C2 (code bug evidence): the dispatch loop has no iteration
cap.  Against a gateway that requests a tool call on every round trip
(each call parsing and executing fine), the loop never terminates on its
own: for EVERY fuel bound the embedding exhausts the fuel, and no
`LoopLimitExceeded` (or any other) exit is ever taken. -/
theorem claim_C2_no_iteration_cap :
    ∀ (fuel i : Nat) (msgs : List Msg) (execs : List ToolExec)
      (invs : List Invocation),
      (agenticLoop envOk availOne gwForever fuel i msgs execs invs).isOutOfFuel
        = true := by
  intro fuel
  induction fuel with
  | zero => intro i msgs execs invs; rfl
  | succ n ih =>
      intro i msgs execs invs
      rw [agenticLoop_step envOk availOne gwForever n i msgs execs invs
        ((msgs ++ [Msg.assistant none [⟨"c1", "t", "ok-args"⟩]]) ++
          [Msg.tool "c1" "t" "ok"])
        (execs ++ [("t", [])]) (invs ++ [("A", "t", [])]) rfl (by rfl)]
      exact ih (i + 1) _ _ _

/-! ### Claim C3 -/

/-- Claim C3 (counterexample): when servers "A" (registered first) and
"B" (registered later) both expose a tool named "t", the aggregated view
holds TWO entries for that name — nothing overwrites anything — and
routing (the `next(...)` lookup over `available_tools`) resolves to the
EARLIER-registered server "A", not the later one. -/
theorem claim_C3_counterexample :
    ((runOps exOps).available_tools.filter
        (fun p => p.2.name == "t")).length = 2 ∧
    (runOps exOps).available_tools.find? (fun p => p.2.name == "t") =
      some ("A", exToolA) := by
  exact ⟨rfl, rfl⟩

/-- Claim C3 (amended): if two connected servers expose a tool with the
same name, the aggregated tool view keeps BOTH servers' entries (one per
owning server, earlier-registered first), and tool-call routing for that
name resolves to the earlier-registered server's entry. -/
theorem claim_C3_amended (a b n : String) (ta tb : List ToolDescriptor)
    (av : List (String × ToolDescriptor)) (cs : List String)
    (cfgs : List ServerConfig) (t t2 : ToolDescriptor)
    (hta : ta.find? (fun td => td.name == n) = some t)
    (htb : t2 ∈ tb) (ht2 : t2.name = n) :
    (rebuild_tools_list ⟨[(a, ⟨ta⟩), (b, ⟨tb⟩)], av, cs, cfgs⟩).available_tools.find?
        (fun p => p.2.name == n) = some (a, t) ∧
    (a, t) ∈ (rebuild_tools_list
        ⟨[(a, ⟨ta⟩), (b, ⟨tb⟩)], av, cs, cfgs⟩).available_tools ∧
    ((b, t2) ∈ (rebuild_tools_list
        ⟨[(a, ⟨ta⟩), (b, ⟨tb⟩)], av, cs, cfgs⟩).available_tools ∧
      t2.name = n) := by
  have hmem : t ∈ ta := List.mem_of_find?_eq_some hta
  refine ⟨?_, ?_, ?_, ht2⟩
  · simp only [rebuild_tools_list, List.flatMap_cons, List.flatMap_nil,
      List.append_nil, List.find?_append, List.find?_map]
    have : (fun p : String × ToolDescriptor => p.2.name == n) ∘
        (fun td => (a, td)) = fun td => td.name == n := rfl
    rw [this, hta]
    rfl
  · simp only [rebuild_tools_list, List.flatMap_cons, List.flatMap_nil,
      List.append_nil, List.mem_append, List.mem_map]
    exact Or.inl ⟨t, hmem, rfl⟩
  · simp only [rebuild_tools_list, List.flatMap_cons, List.flatMap_nil,
      List.append_nil, List.mem_append, List.mem_map]
    exact Or.inr ⟨t2, htb, rfl⟩

/-- Witness for the amended C3 at the concrete two-server registry. -/
theorem claim_C3_amended_instance :
    (rebuild_tools_list
        ⟨[("A", ⟨[exToolA]⟩), ("B", ⟨[exToolB]⟩)], [], [], []⟩).available_tools.find?
        (fun p => p.2.name == "t") = some ("A", exToolA) ∧
    ("A", exToolA) ∈ (rebuild_tools_list
        ⟨[("A", ⟨[exToolA]⟩), ("B", ⟨[exToolB]⟩)], [], [], []⟩).available_tools ∧
    (("B", exToolB) ∈ (rebuild_tools_list
        ⟨[("A", ⟨[exToolA]⟩), ("B", ⟨[exToolB]⟩)], [], [], []⟩).available_tools ∧
      exToolB.name = "t") :=
  claim_C3_amended "A" "B" "t" [exToolA] [exToolB] [] [] []
    exToolA exToolB rfl (by simp) rfl

/-! ### Claim C5 -/

/-- Claim C5 (counterexample): removing the connected server "A" emits
the config-deletion step BEFORE the session-close step — the code
filters `server_configs` first and only then runs
`disconnect_server_async` — so "first disconnects, only then deletes its
configuration" is false on the code. -/
theorem claim_C5_counterexample :
    (remove_server "A" exState).2.2 =
      [RemoveEvent.configDeleted "A", RemoveEvent.sessionClosed "A"] ∧
    disconnectBeforeDelete (remove_server "A" exState).2.2 "A" = false := by
  exact ⟨rfl, rfl⟩

/-- Claim C5 (amended): removing a currently connected server deletes
its configuration FIRST and then disconnects it (the session is closed
and leaves the live-session map) before the removal returns — the
disconnect never precedes the config deletion — and afterwards the
aggregated flat tool list contains no tool owned by that server. -/
theorem claim_C5_amended (s : MCPClientState) (n : String)
    (h : dictHas n s.servers = true) :
    (remove_server n s).2.2 =
      (if s.server_configs.any (fun c => c.name == n) then
        [RemoveEvent.configDeleted n] else []) ++ [RemoveEvent.sessionClosed n] ∧
    disconnectBeforeDelete (remove_server n s).2.2 n = false ∧
    ∀ p ∈ (remove_server n s).1.available_tools, p.1 ≠ n := by
  refine ⟨?_, ?_, ?_⟩
  · simp only [remove_server, h, if_true]
  · simp only [remove_server, h, if_true]
    by_cases hc : s.server_configs.any (fun c => c.name == n) = true
    · simp [hc, disconnectBeforeDelete, idxOf, List.findIdx?]
    · simp only [Bool.not_eq_true] at hc
      simp [hc, disconnectBeforeDelete, idxOf, List.findIdx?]
  · intro p hp
    simp only [remove_server, h, if_true, disconnect_server_async] at hp
    simp only [rebuild_tools_list, List.mem_flatMap, List.mem_map] at hp
    obtain ⟨q, hq, t, _, hqt⟩ := hp
    simp only [dictRemove, List.mem_filter, Bool.not_eq_true',
      beq_eq_false_iff_ne] at hq
    intro hpn
    apply hq.2
    rw [← hqt] at hpn
    exact hpn

/-- Witness for the amended C5 at the concrete registry, removing the
connected server "A". -/
theorem claim_C5_amended_instance :
    (remove_server "A" exState).2.2 =
      (if exState.server_configs.any (fun c => c.name == "A") then
        [RemoveEvent.configDeleted "A"] else []) ++
        [RemoveEvent.sessionClosed "A"] ∧
    disconnectBeforeDelete (remove_server "A" exState).2.2 "A" = false ∧
    ∀ p ∈ (remove_server "A" exState).1.available_tools, p.1 ≠ "A" :=
  claim_C5_amended exState "A" (by decide)

/-! ### Claim C6 -/

/-- Claim C6 (counterexample): removing the name "x", which is present
in no stored configuration, does NOT fail with a NotFound error — the
route unconditionally answers `{'status': 'success'}` — though the
configuration list is indeed left unchanged. -/
theorem claim_C6_counterexample :
    (remove_server "x" exState).2.1 = "success" ∧
    (remove_server "x" exState).1.server_configs = exState.server_configs := by
  exact ⟨rfl, rfl⟩

/-- Claim C6 (amended): for every server name not present in the stored
configurations, removeConfig(name) reports success (no NotFound error
exists in the code) and leaves the configuration list unchanged. -/
theorem claim_C6_amended (s : MCPClientState) (n : String)
    (h : ∀ c ∈ s.server_configs, c.name ≠ n) :
    (remove_server n s).2.1 = "success" ∧
    (remove_server n s).1.server_configs = s.server_configs := by
  have hfilter : s.server_configs.filter (fun c => !(c.name == n)) =
      s.server_configs := by
    apply List.filter_eq_self.2
    intro c hc
    simp only [Bool.not_eq_eq_eq_not, Bool.not_true, beq_eq_false_iff_ne]
    exact h c hc
  have hmap : s.server_configs.map (fun c =>
      if c.name = n then { c with connected := false } else c) =
      s.server_configs := by
    rw [List.map_congr_left (g := id) ?_, List.map_id]
    intro c hc
    simp only [if_neg (h c hc), id]
  constructor
  · simp only [remove_server]
    by_cases hd : dictHas n s.servers = true
    · simp only [hd, if_true]
    · simp only [Bool.not_eq_true] at hd
      simp only [hd, Bool.false_eq_true, if_false]
  · simp only [remove_server]
    by_cases hd : dictHas n s.servers = true
    · simp only [hd, if_true, disconnect_server_async, hfilter]
      simp only [rebuild_tools_list, hmap]
    · simp only [Bool.not_eq_true] at hd
      simp only [hd, Bool.false_eq_true, if_false, hfilter]

/-- Witness for the amended C6: removing the unconfigured name "x" from
the concrete registry. -/
theorem claim_C6_amended_instance :
    (remove_server "x" exState).2.1 = "success" ∧
    (remove_server "x" exState).1.server_configs = exState.server_configs :=
  claim_C6_amended exState "x" (by decide)

/-! ### Dict lemmas and the registry invariant -/

/-- Membership form of `dictHas`. -/
theorem dictHas_iff (m : String) (d : List (String × ServerInfo)) :
    dictHas m d = true ↔ ∃ p, p ∈ d ∧ p.1 = m := by
  simp [dictHas, List.any_eq_true]

/-- `dictInsert` adds exactly the inserted key (Bool form). -/
theorem dictHas_insert_eq (m n : String) (v : ServerInfo)
    (d : List (String × ServerInfo)) :
    dictHas m (dictInsert n v d) = ((n == m) || dictHas m d) := by
  induction d with
  | nil => simp [dictHas, dictInsert]
  | cons hd tl ih =>
      obtain ⟨k, w⟩ := hd
      by_cases h : k = n
      · subst h
        simp only [dictInsert, if_pos rfl, dictHas, List.any_cons]
        cases hk : (k == m) <;> simp [hk]
      · simp only [dictInsert, if_neg h, dictHas, List.any_cons] at ih ⊢
        rw [ih]
        cases hk : (k == m) <;> cases hn : (n == m) <;> simp [hk, hn]

/-- `dictInsert` adds exactly the inserted key. -/
theorem dictHas_insert (m n : String) (v : ServerInfo)
    (d : List (String × ServerInfo)) :
    dictHas m (dictInsert n v d) = true ↔ m = n ∨ dictHas m d = true := by
  rw [dictHas_insert_eq]
  simp only [Bool.or_eq_true, beq_iff_eq]
  constructor
  · rintro (h | h)
    · exact Or.inl h.symm
    · exact Or.inr h
  · rintro (h | h)
    · exact Or.inl h.symm
    · exact Or.inr h

/-- `dictRemove` removes exactly the removed key. -/
theorem dictHas_remove (m n : String) (d : List (String × ServerInfo)) :
    dictHas m (dictRemove n d) = true ↔ m ≠ n ∧ dictHas m d = true := by
  simp only [dictHas_iff, dictRemove, List.mem_filter, Bool.not_eq_true',
    beq_eq_false_iff_ne]
  constructor
  · rintro ⟨p, ⟨hpd, hpn⟩, hpm⟩
    exact ⟨hpm ▸ hpn, p, hpd, hpm⟩
  · rintro ⟨hmn, p, hpd, hpm⟩
    exact ⟨p, ⟨hpd, hpm ▸ hmn⟩, hpm⟩

/-- Every entry of a rebuilt flat view is owned by a key of the
live-session map it came from. -/
theorem flatOf_owner (servers : List (String × ServerInfo))
    (p : String × ToolDescriptor) (hp : p ∈ flatOf servers) :
    dictHas p.1 servers = true := by
  simp only [flatOf, List.mem_flatMap, List.mem_map] at hp
  obtain ⟨q, hq, t, _, hqt⟩ := hp
  rw [dictHas_iff]
  exact ⟨q, hq, by rw [← hqt]⟩

/-- The config-update map of a connect/disconnect preserves every
config's name. -/
theorem configUpdate_name (n : String) (b : Bool) (c : ServerConfig) :
    ((if c.name = n then { c with connected := b } else c) :
      ServerConfig).name = c.name := by
  by_cases h : c.name = n <;> simp [h]

/-- The initial state satisfies the registry invariant. -/
theorem registryInv_init : RegistryInv initState := by
  refine ⟨rfl, List.nodup_nil, ?_, ?_, ?_⟩ <;> simp [initState, dictHas]

/-- `add_server` preserves the registry invariant. -/
theorem registryInv_add (s : MCPClientState) (n cmd : String)
    (args : List String) (h : RegistryInv s) :
    RegistryInv (add_server n cmd args s).1 := by
  obtain ⟨h1, h2, h3, h4, h5⟩ := h
  by_cases hdup : s.server_configs.any (fun c => c.name == n) = true
  · simpa [add_server, hdup] using ⟨h1, h2, h3, h4, h5⟩
  · simp only [add_server, hdup, Bool.false_eq_true, if_false]
    refine ⟨h1, h2, h3, ?_, ?_⟩
    · intro c hc hdict
      rcases List.mem_append.1 hc with hold | hnew
      · exact h4 c hold hdict
      · simp only [List.mem_singleton] at hnew
        subst hnew
        obtain ⟨c0, hc0, hc0n⟩ := h5 _ hdict
        exfalso
        apply hdup
        rw [List.any_eq_true]
        exact ⟨c0, hc0, by simp [hc0n]⟩
    · intro m hm
      obtain ⟨c0, hc0, hc0n⟩ := h5 m hm
      exact ⟨c0, List.mem_append.2 (Or.inl hc0), hc0n⟩

/-- `connect_server_async` (as dispatched by the connect route, whose
guard guarantees a config of the name exists) preserves the registry
invariant. -/
theorem registryInv_connect (s : MCPClientState) (n : String)
    (outcome : Option (List ToolDescriptor))
    (hc : s.server_configs.any (fun c => c.name == n) = true)
    (h : RegistryInv s) :
    RegistryInv (connect_server_async n outcome s).1 := by
  obtain ⟨h1, h2, h3, h4, h5⟩ := h
  cases outcome with
  | none => exact ⟨h1, h2, h3, h4, h5⟩
  | some ts =>
      by_cases hmem : n ∈ s.connected_servers
      · simp only [connect_server_async, hmem, if_true, rebuild_tools_list]
        refine ⟨rfl, h2, ?_, ?_, ?_⟩
        · intro m
          rw [dictHas_insert, h3 m]
          constructor
          · rintro (rfl | hm)
            · exact hmem
            · exact hm
          · exact Or.inr
        · intro c' hc' hdict
          obtain ⟨c, hcm, rfl⟩ := List.mem_map.1 hc'
          by_cases hcn : c.name = n
          · simp [hcn]
          · simp only [if_neg hcn] at hdict ⊢
            rw [dictHas_insert] at hdict
            rcases hdict with rfl | hd
            · exact absurd rfl hcn
            · exact h4 c hcm hd
        · intro m hm
          rw [dictHas_insert] at hm
          rcases hm with rfl | hd
          · rw [List.any_eq_true] at hc
            obtain ⟨c, hcm, hcn⟩ := hc
            rw [beq_iff_eq] at hcn
            exact ⟨_, List.mem_map_of_mem _ hcm, by rw [configUpdate_name]; exact hcn⟩
          · obtain ⟨c, hcm, hcn⟩ := h5 m hd
            exact ⟨_, List.mem_map_of_mem _ hcm, by rw [configUpdate_name]; exact hcn⟩
      · simp only [connect_server_async, hmem, if_false, rebuild_tools_list]
        refine ⟨rfl, ?_, ?_, ?_, ?_⟩
        · rw [List.nodup_append]
          exact ⟨h2, List.nodup_singleton n, by simpa [List.disjoint_singleton] using hmem⟩
        · intro m
          rw [dictHas_insert, h3 m, List.mem_append, List.mem_singleton]
          tauto
        · intro c' hc' hdict
          obtain ⟨c, hcm, rfl⟩ := List.mem_map.1 hc'
          by_cases hcn : c.name = n
          · simp [hcn]
          · simp only [if_neg hcn] at hdict ⊢
            rw [dictHas_insert] at hdict
            rcases hdict with rfl | hd
            · exact absurd rfl hcn
            · exact h4 c hcm hd
        · intro m hm
          rw [dictHas_insert] at hm
          rcases hm with rfl | hd
          · rw [List.any_eq_true] at hc
            obtain ⟨c, hcm, hcn⟩ := hc
            rw [beq_iff_eq] at hcn
            exact ⟨_, List.mem_map_of_mem _ hcm, by rw [configUpdate_name]; exact hcn⟩
          · obtain ⟨c, hcm, hcn⟩ := h5 m hd
            exact ⟨_, List.mem_map_of_mem _ hcm, by rw [configUpdate_name]; exact hcn⟩

/-- `disconnect_server_async` preserves the registry invariant. -/
theorem registryInv_disconnect (s : MCPClientState) (n : String)
    (h : RegistryInv s) :
    RegistryInv (disconnect_server_async n s).1 := by
  obtain ⟨h1, h2, h3, h4, h5⟩ := h
  by_cases hd : dictHas n s.servers = true
  · simp only [disconnect_server_async, hd, if_true, rebuild_tools_list]
    refine ⟨rfl, h2.erase n, ?_, ?_, ?_⟩
    · intro m
      rw [dictHas_remove, h3 m, h2.mem_erase_iff]
    · intro c' hc' hdict
      obtain ⟨c, hcm, rfl⟩ := List.mem_map.1 hc'
      by_cases hcn : c.name = n
      · rw [dictHas_remove] at hdict
        simp only [hcn, if_true] at hdict
        exact absurd rfl hdict.1
      · simp only [if_neg hcn] at hdict ⊢
        rw [dictHas_remove] at hdict
        exact h4 c hcm hdict.2
    · intro m hm
      rw [dictHas_remove] at hm
      obtain ⟨c, hcm, hcn⟩ := h5 m hm.2
      exact ⟨_, List.mem_map_of_mem _ hcm, by rw [configUpdate_name]; exact hcn⟩
  · simp only [disconnect_server_async, hd, Bool.false_eq_true, if_false]
    exact ⟨h1, h2, h3, h4, h5⟩

/-- `remove_server` preserves the registry invariant. -/
theorem registryInv_remove (s : MCPClientState) (n : String)
    (h : RegistryInv s) :
    RegistryInv (remove_server n s).1 := by
  obtain ⟨h1, h2, h3, h4, h5⟩ := h
  by_cases hd : dictHas n s.servers = true
  · simp only [remove_server, hd, if_true, disconnect_server_async,
      rebuild_tools_list]
    refine ⟨rfl, h2.erase n, ?_, ?_, ?_⟩
    · intro m
      rw [dictHas_remove, h3 m, h2.mem_erase_iff]
    · intro c' hc' hdict
      obtain ⟨c, hcm, rfl⟩ := List.mem_map.1 hc'
      have hcf := List.mem_filter.1 hcm
      have hcn : c.name ≠ n := by
        have := hcf.2
        simpa [beq_eq_false_iff_ne] using this
      simp only [if_neg hcn] at hdict ⊢
      rw [dictHas_remove] at hdict
      exact h4 c hcf.1 hdict.2
    · intro m hm
      rw [dictHas_remove] at hm
      obtain ⟨c, hcm, hcn⟩ := h5 m hm.2
      have hcn' : c.name ≠ n := by rw [hcn]; exact hm.1
      have hfilt : (fun c => !(c.name == n)) c = true := by
        simpa [beq_eq_false_iff_ne] using hcn'
      exact ⟨_, List.mem_map_of_mem _ (List.mem_filter.2 ⟨hcm, hfilt⟩),
        by rw [configUpdate_name]; exact hcn⟩
  · simp only [remove_server, hd, Bool.false_eq_true, if_false]
    refine ⟨h1, h2, h3, ?_, ?_⟩
    · intro c hcm hdict
      exact h4 c (List.mem_filter.1 hcm).1 hdict
    · intro m hm
      obtain ⟨c, hcm, hcn⟩ := h5 m hm
      have hcn' : c.name ≠ n := by
        intro he
        apply hd
        rw [← he, hcn] at hm
        rw [hcn] at he
        rw [← he]
        exact hm
      have hfilt : (fun c => !(c.name == n)) c = true := by
        simpa [beq_eq_false_iff_ne] using hcn'
      exact ⟨c, List.mem_filter.2 ⟨hcm, hfilt⟩, hcn⟩

/-- Every operation preserves the registry invariant. -/
theorem registryInv_applyOp (s : MCPClientState) (op : Op)
    (h : RegistryInv s) : RegistryInv (applyOp s op) := by
  cases op with
  | addServer n cmd args => exact registryInv_add s n cmd args h
  | connect n outcome =>
      by_cases hc : s.server_configs.any (fun c => c.name == n) = true
      · simpa [applyOp, hc] using registryInv_connect s n outcome hc h
      · simpa [applyOp, hc] using h
  | disconnect n => exact registryInv_disconnect s n h
  | removeServer n => exact registryInv_remove s n h

/-- Every state reachable by a sequence of front-end operations
satisfies the registry invariant. -/
theorem registryInv_runOps (ops : List Op) : RegistryInv (runOps ops) := by
  suffices hgen : ∀ (l : List Op) (s : MCPClientState),
      RegistryInv s → RegistryInv (l.foldl applyOp s) by
    exact hgen ops initState registryInv_init
  intro l
  induction l with
  | nil => intro s hs; exact hs
  | cons op rest ih =>
      intro s hs
      exact ih (applyOp s op) (registryInv_applyOp s op hs)

/-! ### Claim C7 -/

/-- A successful `connect_server_async` leaves the stored configs as the
original list with the connected flag set on the connected name. -/
theorem connect_configs_some (n : String) (ts : List ToolDescriptor)
    (s : MCPClientState) :
    (connect_server_async n (some ts) s).1.server_configs =
      s.server_configs.map (fun c =>
        if c.name = n then { c with connected := true } else c) := by
  by_cases h : n ∈ s.connected_servers <;>
    simp [connect_server_async, rebuild_tools_list, h]

/-- Looking a config up by a name different from the one a connect
flagged still finds the untouched config. -/
theorem find?_config_map_ne (configs : List ServerConfig) (n m : String)
    (c' : ServerConfig) (hmn : m ≠ n)
    (hf : configs.find? (fun d => d.name == m) = some c') :
    (configs.map (fun c =>
        if c.name = n then { c with connected := true } else c)).find?
      (fun d => d.name == m) = some c' := by
  induction configs with
  | nil => simp at hf
  | cons d tl ih =>
      cases hdm : (d.name == m) with
      | true =>
          simp only [List.find?_cons, hdm] at hf
          have hd' : d = c' := by injection hf
          subst hd'
          have hdn : ¬(d.name = n) := by
            rw [beq_iff_eq] at hdm
            rw [hdm]
            exact hmn
          simp only [List.map_cons, if_neg hdn, List.find?_cons, hdm]
      | false =>
          simp only [List.find?_cons, hdm] at hf
          have hgd : (((if d.name = n then { d with connected := true }
              else d) : ServerConfig).name == m) = false := by
            rw [configUpdate_name]
            exact hdm
          simp only [List.map_cons, List.find?_cons, hgd]
          exact ih hf

/-- With pairwise-distinct config names (what `add_server` enforces),
looking a stored config up by its own name yields that config. -/
theorem find?_self_of_nodup (configs : List ServerConfig)
    (hnd : (configs.map (fun c => c.name)).Nodup) (c : ServerConfig)
    (hc : c ∈ configs) :
    configs.find? (fun d => d.name == c.name) = some c := by
  induction configs with
  | nil => cases hc
  | cons d tl ih =>
      rw [List.map_cons, List.nodup_cons] at hnd
      rcases List.mem_cons.1 hc with rfl | htl
      · exact List.find?_cons_of_pos _ (by simp)
      · have hne : (d.name == c.name) = false := by
          rw [beq_eq_false_iff_ne]
          intro he
          exact hnd.1 (he ▸ List.mem_map_of_mem (fun c => c.name) htl)
        rw [List.find?_cons_of_neg _ (by simp [hne]), ih hnd.2 htl]

/-- The `results` list `connect_all_async` accumulates: one entry per
not-yet-connected config, in order, each entry determined by that
server's own attempt outcome alone — so one server's failure neither
skips nor alters the remaining attempts. -/
theorem connect_all_go_results (env : ConnEnv) (cs : List ServerConfig) :
    ∀ (s : MCPClientState) (acc : List ConnResult),
      (∀ c ∈ cs, s.server_configs.find? (fun d => d.name == c.name) = some c) →
      (cs.map (fun c => c.name)).Nodup →
      (connect_all_go env (cs.map (fun c => c.name)) s acc).2 =
        acc ++ cs.filterMap (fun c =>
          if c.connected then none else some (attemptResult env c.name)) := by
  induction cs with
  | nil => intro s acc _ _; simp [connect_all_go]
  | cons c rest ih =>
      intro s acc hfind hnd
      rw [List.map_cons, List.nodup_cons] at hnd
      have hc0 : s.server_configs.find? (fun d => d.name == c.name) = some c :=
        hfind c (List.mem_cons_self c rest)
      rw [List.map_cons]
      simp only [connect_all_go, hc0]
      by_cases hcc : c.connected = true
      · rw [if_pos hcc]
        rw [ih s acc (fun c' hc' => hfind c' (List.mem_cons_of_mem c hc')) hnd.2]
        simp [List.filterMap_cons, hcc]
      · rw [if_neg hcc]
        have hres : (connect_server_async c.name (env.outcome c.name) s).2 =
            attemptResult env c.name := by
          cases ho : env.outcome c.name <;>
            simp [connect_server_async, attemptResult, ho]
        have hrest : ∀ c' ∈ rest,
            (connect_server_async c.name (env.outcome c.name) s).1.server_configs.find?
              (fun d => d.name == c'.name) = some c' := by
          intro c' hc'
          have hf' := hfind c' (List.mem_cons_of_mem c hc')
          have hne : c'.name ≠ c.name := by
            intro he
            exact hnd.1 (he ▸ List.mem_map_of_mem (fun x => x.name) hc')
          cases ho : env.outcome c.name with
          | none => exact hf'
          | some ts =>
              rw [connect_configs_some]
              exact find?_config_map_ne _ _ _ _ hne hf'
        rw [ih _ _ hrest hnd.2, hres]
        simp [List.filterMap_cons, hcc, List.append_assoc]

/-- Claim C7 (counterexample): two registries run against the same
connection environment — one holding the failing config "A" plus the
succeeding "B", the other holding "B" alone — produce IDENTICAL
aggregate return values, so the aggregate reported to the caller cannot
be carrying per-server success/failure of each attempt; the per-attempt
`results` lists of the two runs do differ, but the code drops them. -/
theorem claim_C7_counterexample :
    (connect_all_async envConnB sAB).2.1 = (connect_all_async envConnB sB).2.1 ∧
    (connect_all_async envConnB sAB).2.2 ≠ (connect_all_async envConnB sB).2.2 := by
  exact ⟨rfl, by decide⟩

/-- Claim C7 (amended): connectAll attempts a connection for every
configured server not yet connected, each attempt independently — the
per-attempt results list holds exactly one entry per not-connected
config, each determined by that server's own outcome, so one failure
does not prevent or alter the remaining attempts — but that list is only
accumulated locally: the aggregate returned to the caller reports an
overall success status, the connected-server list and the total tool
count, not the per-server outcome of each attempt. -/
theorem claim_C7_amended (env : ConnEnv) (s : MCPClientState)
    (hne : s.server_configs.isEmpty = false)
    (hnd : (s.server_configs.map (fun c => c.name)).Nodup) :
    (connect_all_async env s).2.2 =
      s.server_configs.filterMap (fun c =>
        if c.connected then none else some (attemptResult env c.name)) ∧
    (connect_all_async env s).2.1 =
      ⟨"success",
       "Connected to " ++
         toString (connect_all_async env s).1.connected_servers.length ++
         " servers",
       (connect_all_async env s).1.connected_servers,
       (connect_all_async env s).1.available_tools.length⟩ := by
  constructor
  · simp only [connect_all_async, hne, Bool.false_eq_true, if_false]
    exact connect_all_go_results env s.server_configs s []
      (fun c hc => find?_self_of_nodup s.server_configs hnd c hc) hnd
  · simp only [connect_all_async, hne, Bool.false_eq_true, if_false]

/-- Witness for the amended C7 at the concrete two-config registry
(attempt on "A" fails, attempt on "B" succeeds). -/
theorem claim_C7_amended_instance :
    (connect_all_async envConnB sAB).2.2 =
      sAB.server_configs.filterMap (fun c =>
        if c.connected then none else some (attemptResult envConnB c.name)) ∧
    (connect_all_async envConnB sAB).2.1 =
      ⟨"success",
       "Connected to " ++
         toString (connect_all_async envConnB sAB).1.connected_servers.length ++
         " servers",
       (connect_all_async envConnB sAB).1.connected_servers,
       (connect_all_async envConnB sAB).1.available_tools.length⟩ :=
  claim_C7_amended envConnB sAB (by decide) (by decide)

/-! ### Claim C4 -/

/-- Claim C4: for every sequence of addServer/connect/disconnect/
removeServer operations, the aggregated flat tool list is exactly the
tools of the currently live (Connected) sessions, each stamped with its
owning server, and every aggregated entry is owned by a currently
connected server — no tool of a disconnected or failed server remains.
(The list is rebuilt inside every connect and disconnect before the
operation returns; in the model this is the `rebuild_tools_list` call
ending `connect_server_async` and `disconnect_server_async`.) -/
theorem claim_C4_flat_list (ops : List Op) :
    (runOps ops).available_tools = flatOf (runOps ops).servers ∧
    ∀ p ∈ (runOps ops).available_tools,
      p.1 ∈ (runOps ops).connected_servers := by
  obtain ⟨h1, _, h3, _, _⟩ := registryInv_runOps ops
  refine ⟨h1, ?_⟩
  intro p hp
  rw [h1] at hp
  exact (h3 p.1).1 (flatOf_owner _ p hp)

/-- Witness for C4 at the concrete operation sequence `exOps`. -/
theorem claim_C4_flat_list_instance :
    (runOps exOps).available_tools = flatOf (runOps exOps).servers ∧
    ("A", exToolA).1 ∈ (runOps exOps).connected_servers :=
  ⟨(claim_C4_flat_list exOps).1,
    (claim_C4_flat_list exOps).2 ("A", exToolA) (by decide)⟩

/-! ### Claim C10 -/

/-- Claim C10: after every sequence of connect, disconnect and remove
operations, a server name is a key of the live-session map exactly when
it is a member of the connected-servers list, and every stored
configuration whose name is in that map has its connected flag set. -/
theorem claim_C10_session_map (ops : List Op) :
    (∀ n, dictHas n (runOps ops).servers = true ↔
      n ∈ (runOps ops).connected_servers) ∧
    (∀ c ∈ (runOps ops).server_configs,
      dictHas c.name (runOps ops).servers = true → c.connected = true) := by
  obtain ⟨_, _, h3, h4, _⟩ := registryInv_runOps ops
  exact ⟨h3, h4⟩

/-- Witness for C10 at the concrete operation sequence `exOps`: "A" has
a live session, so it is in the connected list and its config is flagged
connected. -/
theorem claim_C10_session_map_instance :
    "A" ∈ (runOps exOps).connected_servers ∧
    (⟨"A", "cmd", [], true⟩ : ServerConfig).connected = true :=
  ⟨((claim_C10_session_map exOps).1 "A").mp (by decide),
    (claim_C10_session_map exOps).2 ⟨"A", "cmd", [], true⟩ (by decide) (by decide)⟩

/-! ### Claim C8 -/

/-- Claim C8: a tool call whose name resolves to no entry of the
aggregated flat list makes the loop append a `tool` turn carrying the
"not found" error string, correlated by the call's id; no server session
is invoked for that call (the invocation log passed on is unchanged);
processing continues with the remaining calls, and — when the calls of
the response all process — the loop proceeds to the next LLM round trip
instead of terminating. -/
theorem claim_C8_tool_not_found (env : DispatchEnv)
    (availTools : List (String × ToolDescriptor)) (tc : ToolCallReq)
    (a : ArgVal) (rest : List ToolCallReq) (msgs : List Msg)
    (execs : List ToolExec) (invs : List Invocation)
    (hp : env.parse tc.argumentsRaw = Except.ok a)
    (hf : availTools.find? (fun p => p.2.name == tc.name) = none) :
    processToolCalls env availTools (tc :: rest) msgs execs invs =
      processToolCalls env availTools rest
        (msgs ++ [Msg.tool tc.id tc.name (toolNotFoundMsg tc.name)])
        (execs ++ [(tc.name, a)]) invs ∧
    ∀ (gw : Nat → LLMResponse) (fuel i : Nat) (msgs0 m : List Msg)
      (e : List ToolExec) (v : List Invocation),
      (gw i).tool_calls = tc :: rest →
      processToolCalls env availTools (tc :: rest)
        (msgs0 ++ [Msg.assistant (gw i).content (tc :: rest)]) execs invs =
        Except.ok (m, e, v) →
      agenticLoop env availTools gw (fuel + 1) i msgs0 execs invs =
        agenticLoop env availTools gw fuel (i + 1) m e v := by
  constructor
  · simp only [processToolCalls, hp, hf]
  · intro gw fuel i msgs0 m e v hgw hok
    apply agenticLoop_step
    · rw [hgw]
      rfl
    · rw [hgw]
      exact hok

/-- Witness for C8: the concrete call to the unregistered tool "ghost"
against the one-tool view `availOne`. -/
theorem claim_C8_tool_not_found_instance :
    processToolCalls envOk availOne [⟨"c1", "ghost", "kv-args"⟩] [Msg.user "q"] [] [] =
      processToolCalls envOk availOne []
        ([Msg.user "q"] ++
          [Msg.tool "c1" "ghost" (toolNotFoundMsg "ghost")])
        ([] ++ [("ghost", [])]) [] :=
  (claim_C8_tool_not_found envOk availOne ⟨"c1", "ghost", "kv-args"⟩ [] []
    [Msg.user "q"] [] [] rfl rfl).1

/-! ### Claim C9 -/

/-- Processing a response's tool calls appends exactly one
`tool_executions` record per call — tool name plus parsed arguments, in
call order — before ownership resolution, so unresolvable calls
contribute records too; and every processed call's payload parsed. -/
theorem processToolCalls_records (env : DispatchEnv)
    (availTools : List (String × ToolDescriptor)) (calls : List ToolCallReq) :
    ∀ (msgs : List Msg) (execs : List ToolExec) (invs : List Invocation)
      (m : List Msg) (e : List ToolExec) (v : List Invocation),
      processToolCalls env availTools calls msgs execs invs =
        Except.ok (m, e, v) →
      e = execs ++ calls.map (fun tc => (tc.name, argOf env tc)) ∧
      ∀ tc ∈ calls, parseOk env tc = true := by
  induction calls with
  | nil =>
      intro msgs execs invs m e v h
      simp only [processToolCalls, Except.ok.injEq, Prod.mk.injEq] at h
      obtain ⟨_, h2, _⟩ := h
      subst h2
      exact ⟨by simp, by simp⟩
  | cons tc rest ih =>
      intro msgs execs invs m e v h
      simp only [processToolCalls] at h
      cases hp : env.parse tc.argumentsRaw with
      | error err =>
          simp only [hp] at h
          exact Except.noConfusion h
      | ok a =>
          simp only [hp] at h
          cases hfind : availTools.find? (fun p => p.2.name == tc.name) with
          | none =>
              simp only [hfind] at h
              obtain ⟨he, hall⟩ := ih _ _ _ _ _ _ h
              constructor
              · rw [he]
                simp [argOf, hp]
              · intro tc' htc'
                rcases List.mem_cons.1 htc' with rfl | hm
                · simp [parseOk, hp]
                · exact hall tc' hm
          | some owner =>
              simp only [hfind] at h
              cases hct : env.callTool owner.1 tc.name a with
              | error err =>
                  simp only [hct] at h
                  exact Except.noConfusion h
              | ok content =>
                  simp only [hct] at h
                  obtain ⟨he, hall⟩ := ih _ _ _ _ _ _ h
                  constructor
                  · rw [he]
                    simp [argOf, hp]
                  · intro tc' htc'
                    rcases List.mem_cons.1 htc' with rfl | hm
                    · simp [parseOk, hp]
                    · exact hall tc' hm

/-- On a successful query the `tool_executions` list is exactly one
record per requested call of every consumed LLM response, in order. -/
theorem agenticLoop_records (env : DispatchEnv)
    (availTools : List (String × ToolDescriptor)) (gw : Nat → LLMResponse)
    (fuel : Nat) :
    ∀ (i : Nat) (msgs : List Msg) (execs : List ToolExec)
      (invs : List Invocation) (c : Option String) (e : List ToolExec)
      (m : List Msg) (v : List Invocation),
      agenticLoop env availTools gw fuel i msgs execs invs =
        QueryOutcome.success c e m v →
      ∃ k, (gw (i + k)).tool_calls = [] ∧
        e = execs ++ (requestedCalls gw i k).map
          (fun tc => (tc.name, argOf env tc)) ∧
        ∀ tc ∈ requestedCalls gw i k, parseOk env tc = true := by
  induction fuel with
  | zero =>
      intro i msgs execs invs c e m v h
      simp only [agenticLoop] at h
      exact QueryOutcome.noConfusion h
  | succ n ih =>
      intro i msgs execs invs c e m v h
      cases hemp : (gw i).tool_calls.isEmpty with
      | true =>
          simp only [agenticLoop, hemp, if_true, QueryOutcome.success.injEq] at h
          obtain ⟨_, hexecs, _, _⟩ := h
          refine ⟨0, ?_, ?_, ?_⟩
          · simpa using List.isEmpty_iff.1 hemp
          · rw [← hexecs]
            simp [requestedCalls]
          · intro tc htc
            simp [requestedCalls] at htc
      | false =>
          simp only [agenticLoop, hemp, Bool.false_eq_true, if_false] at h
          cases hproc : processToolCalls env availTools (gw i).tool_calls
              (msgs ++ [Msg.assistant (gw i).content (gw i).tool_calls])
              execs invs with
          | error p =>
              obtain ⟨p1, p2, p3⟩ := p
              simp only [hproc] at h
              exact QueryOutcome.noConfusion h
          | ok r =>
              obtain ⟨m1, e1, v1⟩ := r
              simp only [hproc] at h
              obtain ⟨k, hk1, hk2, hk3⟩ := ih (i + 1) m1 e1 v1 c e m v h
              obtain ⟨he1, hall1⟩ :=
                processToolCalls_records env availTools _ _ _ _ _ _ _ hproc
              refine ⟨k + 1, ?_, ?_, ?_⟩
              · rw [show i + (k + 1) = i + 1 + k by omega]
                exact hk1
              · rw [hk2, he1]
                simp [requestedCalls, List.map_append, List.append_assoc]
              · intro tc htc
                simp only [requestedCalls, List.mem_append] at htc
                rcases htc with h1 | h2
                · exact hall1 tc h1
                · exact hk3 tc h2

/-- Claim C9: the tool-execution record list returned with a successful
query's result contains exactly one entry — tool name plus parsed
arguments — per tool call the gateway requested, in request order,
appended regardless of (and before) ownership resolution, so a call
whose name resolves to no connected server still contributes a record;
and every such call's argument payload parsed. -/
theorem claim_C9_records (env : DispatchEnv)
    (availTools : List (String × ToolDescriptor)) (gw : Nat → LLMResponse)
    (query : String) (fuel : Nat) (c : Option String) (e : List ToolExec)
    (m : List Msg) (v : List Invocation)
    (h : process_query_async env availTools gw query fuel =
      QueryOutcome.success c e m v) :
    ∃ k, (gw k).tool_calls = [] ∧
      e = (requestedCalls gw 0 k).map (fun tc => (tc.name, argOf env tc)) ∧
      ∀ tc ∈ requestedCalls gw 0 k, parseOk env tc = true := by
  obtain ⟨k, h1, h2, h3⟩ :=
    agenticLoop_records env availTools gw fuel 0 [Msg.user query] [] []
      c e m v h
  refine ⟨k, by simpa using h1, by simpa using h2, h3⟩

/-- Witness for C9: the concrete run in which the gateway requests the
unresolvable "ghost" and the resolvable "t" and then answers; both calls
are recorded, "ghost" included. -/
theorem claim_C9_records_instance :
    ∃ k, (gwGhost k).tool_calls = [] ∧
      ([("ghost", ([] : ArgVal)), ("t", [])] : List ToolExec) =
        (requestedCalls gwGhost 0 k).map
          (fun tc => (tc.name, argOf envOk tc)) ∧
      ∀ tc ∈ requestedCalls gwGhost 0 k, parseOk envOk tc = true :=
  claim_C9_records envOk availOne gwGhost "q" 5 _ _ _ _ (by rfl)

end MCP

